import Mathlib

/-!
Shallow embedding of the branch classifier and trim planner of git-trim
(files src/core.rs, src/porcelain_outputs.rs, src/util.rs), together with a
model of the git object store that the code drives through the git2 library.

Commits are content-addressed: a commit id is computed from the commit data
by an injective pairing encoding, mirroring how git derives an object id
from the object contents.  References map names to commit ids.
-/

/-- A git commit object: a tree id, parent commit ids, the signature used
for both author and committer (name, email, timestamp) and a message. -/
structure Commit where
  tree : Nat
  parents : List Nat
  sigName : String
  sigEmail : String
  sigTime : Nat
  message : String
deriving DecidableEq, Repr

/-- Injective code of a string, used by the content hash of commits. -/
def strCode (s : String) : Nat :=
  s.toList.foldl (fun a c => a * 1114112 + (c.toNat + 1)) 0

/-- Content hash of a commit: the commit id is a function of the whole
commit content, as in git. -/
def commitOid (c : Commit) : Nat :=
  Nat.pair c.sigTime
    (Nat.pair c.tree
      (Nat.pair (Encodable.encode c.parents)
        (Nat.pair (strCode c.sigName)
          (Nat.pair (strCode c.sigEmail) (strCode c.message)))))

/-- The relevant state of a local repository snapshot:
the object store (commit id to commit), the references (refname to commit
id), the HEAD state, and the remote-tracking configuration consulted by
RemoteTrackingBranch conversions (whose source file is not under src). -/
structure Repo where
  commits : List (Nat × Commit)
  refs : List (String × Nat)
  headDetached : Bool
  headName : Option String
  trackingToRemote : List (String × (String × String))
  remoteToTracking : List ((String × String) × String)
deriving Repr

/-- Errors surfaced by the embedded fallible operations. -/
inductive GitError where
  | refNotFound
  | noMergeBase
  | panic
deriving DecidableEq, Repr

/-- Look a commit up in the object store. -/
def lookupCommit (repo : Repo) (oid : Nat) : Option Commit :=
  (repo.commits.lookup oid)

/-- Fuel-bounded ancestry walk: does the walk from src along parent edges
reach tgt within the given number of steps. -/
def reachableFuel (repo : Repo) : Nat → Nat → Nat → Bool
  | 0, src, tgt => src == tgt
  | n + 1, src, tgt =>
    src == tgt ||
      (match lookupCommit repo src with
       | none => false
       | some c => c.parents.any (fun p => reachableFuel repo n p tgt))

/-- Ancestry test: tgt is reachable from src walking parent edges.  The
fuel equal to the size of the object store bounds every simple path. -/
def isAncestorB (repo : Repo) (src tgt : Nat) : Bool :=
  reachableFuel repo repo.commits.length src tgt

/-- A common ancestor of two commits, as computed by the merge-base query
of the underlying library: none exactly when the two commits share no
history. -/
def mergeBase (repo : Repo) (a b : Nat) : Option Nat :=
  ((a :: b :: repo.commits.map Prod.fst).filter
    (fun o => isAncestorB repo a o && isAncestorB repo b o)).head?

/-- A revision argument of the rev-list subprocess: a reference name or a
literal commit id. -/
inductive Rev where
  | ref (name : String)
  | oid (o : Nat)

/-- Resolve a reference name to a commit id and check the object it points
to is a commit, as find_reference followed by peel_to_commit does. -/
def peelToCommit (repo : Repo) (refname : String) : Option Nat :=
  match repo.refs.lookup refname with
  | some o => if (lookupCommit repo o).isSome then some o else none
  | none => none

/-- Resolve a revision argument. -/
def resolveRev (repo : Repo) : Rev → Option Nat
  | .ref name => peelToCommit repo name
  | .oid o => some o

/-- Modelled from the spec: is_merged_by_rev_list lives in
src/subprocess.rs, which is not under src; per the spec it is the
is_ancestor query, a rev-list style ancestry walk from the base. -/
def is_merged_by_rev_list (repo : Repo) (base other : Rev) :
    Except GitError Bool :=
  match resolveRev repo base, resolveRev repo other with
  | some b, some o => .ok (isAncestorB repo b o)
  | _, _ => .error .refNotFound

/-- The tree of the commit a refname peels to, as revparse of the tree
spec of the refname followed by peel_to_tree. -/
def treeOf (repo : Repo) (refname : String) : Option Nat :=
  match peelToCommit repo refname with
  | some o =>
    match lookupCommit repo o with
    | some c => some c.tree
    | none => none
  | none => none

/-- The synthetic commit built by the squash-merge test: the tree of the
candidate, the merge base as single parent, and the fixed git-trim
signature taken at the current time. -/
def synth_commit (tree mb now : Nat) : Commit :=
  { tree := tree
    parents := [mb]
    sigName := "git-trim"
    sigEmail := "git-trim@squash.merge.test.local"
    sigTime := now
    message := "git-trim: squash merge test" }

/-- Write a commit into the object store at its content hash. -/
def addCommit (repo : Repo) (c : Commit) : Repo :=
  { repo with commits := (commitOid c, c) :: repo.commits }

/-- Embeds is_squash_merged of src/core.rs: build a dangling commit whose
tree is the tree of refname and whose single parent is the merge base,
with a signature taken at the current time, then ask the rev-list
ancestry query whether the base reaches it.  The parameter now models the
clock read by the signature constructor. -/
def is_squash_merged (repo : Repo) (now : Nat) (mb : Nat)
    (base refname : String) : Except GitError Bool :=
  match treeOf repo refname with
  | none => .error .refNotFound
  | some tree =>
    if (lookupCommit repo mb).isSome then
      let c := synth_commit tree mb now
      is_merged_by_rev_list (addCommit repo c) (.ref base) (.oid (commitOid c))
    else .error .refNotFound

/-- Embeds is_merged of src/core.rs: resolve both refs, compute the merge
base (propagating its failure), then the rev-list ancestry test
short-circuiting the squash-merge test. -/
def is_merged (repo : Repo) (now : Nat) (base refname : String) :
    Except GitError Bool :=
  match peelToCommit repo base with
  | none => .error .refNotFound
  | some base_oid =>
    match peelToCommit repo refname with
    | none => .error .refNotFound
    | some other_oid =>
      match mergeBase repo base_oid other_oid with
      | none => .error .noMergeBase
      | some mb =>
        match is_merged_by_rev_list repo (.ref base) (.ref refname) with
        | .error e => .error e
        | .ok true => .ok true
        | .ok false => is_squash_merged repo now mb base refname

/-- Prefix test on character lists, used to embed the starts_with calls of
the source on refnames (the built-in byte-level test is not kernel
reducible). -/
def listStarts : List Char → List Char → Bool
  | _, [] => true
  | [], _ :: _ => false
  | a :: s, b :: p => a == b && listStarts s p

/-- Embeds str::starts_with on refnames. -/
def strStarts (s p : String) : Bool :=
  listStarts s.toList p.toList

/-- A remote branch, a pair of remote name and refname on the remote, as
the RemoteBranch struct referenced from src/core.rs. -/
structure RemoteBranch where
  remote : String
  refname : String
deriving DecidableEq, Repr

/-- The branch configuration consulted by the upstream resolvers and the
raw-config fallback; the resolver sources are not under src. -/
structure Config where
  fetchUpstream : List (String × String)
  pushUpstream : List (String × String)
  remoteRaw : List (String × String)
  mergeCfg : List (String × String)

/-- Modelled from the spec: get_fetch_upstream of src/branch.rs is not
under src; it reads the configuration binding naming the tracked remote
ref of the branch and returns the remote-tracking refname, or none. -/
def get_fetch_upstream (config : Config) (refname : String) : Option String :=
  config.fetchUpstream.lookup refname

/-- Modelled from the spec: get_push_upstream of src/branch.rs is not
under src; it computes the remote-tracking refname of the push
destination under the push-default policy, or none. -/
def get_push_upstream (config : Config) (refname : String) : Option String :=
  config.pushUpstream.lookup refname

/-- Modelled from the spec: RemoteTrackingBranch::remote_branch of
src/branch.rs is not under src; it converts a remote-tracking refname to
its RemoteBranch by consulting the remote fetch specs, failing when no
spec maps it. -/
def remote_branch (repo : Repo) (name : String) :
    Except GitError RemoteBranch :=
  match repo.trackingToRemote.lookup name with
  | some rb => .ok ⟨rb.1, rb.2⟩
  | none => .error .refNotFound

/-- Modelled from the spec: RemoteTrackingBranch::from_remote_branch of
src/branch.rs is not under src; it finds the local remote-tracking
refname mirroring a RemoteBranch, or none. -/
def from_remote_branch (repo : Repo) (rb : RemoteBranch) :
    Except GitError (Option String) :=
  .ok (repo.remoteToTracking.lookup (rb.remote, rb.refname))

/-- Modelled from the spec: config::get_remote_raw of src/config.rs is not
under src; it reads the raw remote configuration value of the branch. -/
def get_remote_raw (config : Config) (refname : String) : Option String :=
  config.remoteRaw.lookup refname

/-- Modelled from the spec: config::get_merge of src/config.rs is not
under src; it reads the merge configuration value of the branch. -/
def get_merge (config : Config) (refname : String) : Option String :=
  config.mergeCfg.lookup refname

/-- A resolved reference: a name and the commit id it peels to, as the Ref
struct of src/core.rs. -/
structure Ref where
  name : String
  commit : Nat
deriving DecidableEq, Repr

/-- Embeds Ref::from_name of src/core.rs. -/
def Ref.from_name (repo : Repo) (refname : String) : Except GitError Ref :=
  match peelToCommit repo refname with
  | some o => .ok ⟨refname, o⟩
  | none => .error .refNotFound

/-- An upstream reference together with its merged flag, as the
UpstreamMergeState struct of src/core.rs. -/
structure UpstreamMergeState where
  upstream : Ref
  merged : Bool
deriving DecidableEq, Repr

/-- The four to-delete sets, as the MergedOrStray struct of src/core.rs. -/
structure MergedOrStray where
  merged_locals : Finset String
  stray_locals : Finset String
  merged_remotes : Finset RemoteBranch
  stray_remotes : Finset RemoteBranch
deriving DecidableEq

/-- The empty MergedOrStray, as Default::default. -/
def MergedOrStray.empty : MergedOrStray := ⟨∅, ∅, ∅, ∅⟩

/-- Embeds MergedOrStray::accumulate of src/core.rs: componentwise set
union. -/
def MergedOrStray.accumulate (s o : MergedOrStray) : MergedOrStray :=
  ⟨s.merged_locals ∪ o.merged_locals,
   s.stray_locals ∪ o.stray_locals,
   s.merged_remotes ∪ o.merged_remotes,
   s.stray_remotes ∪ o.stray_remotes⟩

/-- The per-branch report, as the Classification struct of src/core.rs. -/
structure Classification where
  branch : Ref
  branch_is_merged : Bool
  fetch : Option UpstreamMergeState
  push : Option UpstreamMergeState
  messages : List String
  result : MergedOrStray
deriving DecidableEq

/-- Appends a diagnostic message, as the pushes onto the messages vector
in src/core.rs. -/
def Classification.pushMsg (c : Classification) (m : String) : Classification :=
  { c with messages := c.messages ++ [m] }

/-- Embeds Classification::merged_remote of src/core.rs. -/
def Classification.merged_remote (c : Classification) (repo : Repo)
    (upstream : Ref) : Except GitError Classification :=
  match remote_branch repo upstream.name with
  | .ok rb =>
    .ok { c with result :=
      { c.result with merged_remotes := insert rb c.result.merged_remotes } }
  | .error e => .error e

/-- Embeds Classification::stray_remote of src/core.rs. -/
def Classification.stray_remote (c : Classification) (repo : Repo)
    (upstream : Ref) : Except GitError Classification :=
  match remote_branch repo upstream.name with
  | .ok rb =>
    .ok { c with result :=
      { c.result with stray_remotes := insert rb c.result.stray_remotes } }
  | .error e => .error e

/-- Embeds Classification::merged_or_stray_remote of src/core.rs. -/
def Classification.merged_or_stray_remote (c : Classification) (repo : Repo)
    (merge_state : UpstreamMergeState) : Except GitError Classification :=
  if merge_state.merged then
    (c.pushMsg "fetch upstream is merged, but forget to delete").merged_remote
      repo merge_state.upstream
  else
    (c.pushMsg "fetch upstream is not merged").stray_remote
      repo merge_state.upstream

/-- Inserts the branch refname into the merged locals of the result, as
the corresponding insert in src/core.rs. -/
def Classification.addMergedLocal (c : Classification) (r : String) :
    Classification :=
  { c with result :=
    { c.result with merged_locals := insert r c.result.merged_locals } }

/-- Inserts the branch refname into the stray locals of the result, as
the corresponding insert in src/core.rs. -/
def Classification.addStrayLocal (c : Classification) (r : String) :
    Classification :=
  { c with result :=
    { c.result with stray_locals := insert r c.result.stray_locals } }

/-- Inserts a synthesized RemoteBranch into the merged remotes of the
result, as the raw-config fallback insert in src/core.rs. -/
def Classification.addMergedRemote (c : Classification) (rb : RemoteBranch) :
    Classification :=
  { c with result :=
    { c.result with merged_remotes := insert rb c.result.merged_remotes } }

/-- The fetch-upstream merge state computed by classify in src/core.rs:
present when the fetch upstream resolves; the merged flag short-circuits
the oracle when the branch is merged and the upstream points at the same
commit as the branch. -/
def fetch_state (repo : Repo) (config : Config) (now : Nat)
    (base refname : String) (branch : Ref) (branch_is_merged : Bool) :
    Except GitError (Option UpstreamMergeState) :=
  match get_fetch_upstream config refname with
  | none => .ok none
  | some fname =>
    match Ref.from_name repo fname with
    | .error e => .error e
    | .ok upstream =>
      if branch_is_merged && upstream.commit == branch.commit then
        .ok (some ⟨upstream, true⟩)
      else
        match is_merged repo now base upstream.name with
        | .error e => .error e
        | .ok b => .ok (some ⟨upstream, b⟩)

/-- The push-upstream merge state computed by classify in src/core.rs:
as the fetch state, with the extra short-circuit through an already
merged fetch upstream at the same commit. -/
def push_state (repo : Repo) (config : Config) (now : Nat)
    (base refname : String) (branch : Ref) (branch_is_merged : Bool)
    (fetch : Option UpstreamMergeState) :
    Except GitError (Option UpstreamMergeState) :=
  match get_push_upstream config refname with
  | none => .ok none
  | some pname =>
    match Ref.from_name repo pname with
    | .error e => .error e
    | .ok upstream =>
      if branch_is_merged && upstream.commit == branch.commit then
        .ok (some ⟨upstream, true⟩)
      else if (match fetch with
               | some x => x.merged && upstream.commit == x.upstream.commit
               | none => false) then
        .ok (some ⟨upstream, true⟩)
      else
        match is_merged repo now base upstream.name with
        | .error e => .error e
        | .ok b => .ok (some ⟨upstream, b⟩)

/-- The dispatch on fetch and push presence at the end of classify in
src/core.rs, populating messages and the result sets. -/
def dispatch (repo : Repo) (config : Config)
    (remote_heads_per_url : List (String × List String)) (refname : String)
    (branch_is_merged : Bool) (fetch push : Option UpstreamMergeState)
    (c : Classification) : Except GitError Classification :=
  match fetch, push with
  | some f, some p =>
    if branch_is_merged then
      match ((c.pushMsg "local is merged").addMergedLocal
          refname).merged_or_stray_remote repo f with
      | .error e => .error e
      | .ok c1 => c1.merged_or_stray_remote repo p
    else if f.merged || p.merged then
      match ((c.pushMsg "some upstreams are merged, but the local strays").addStrayLocal
          refname).merged_or_stray_remote repo p with
      | .error e => .error e
      | .ok c1 => c1.merged_or_stray_remote repo f
    else .ok c
  | some u, none | none, some u =>
    if branch_is_merged then
      ((c.pushMsg "local is merged").addMergedLocal
        refname).merged_or_stray_remote repo u
    else if u.merged then
      ((c.pushMsg "upstream is merged, but the local strays").addStrayLocal
        refname).merged_remote repo u.upstream
    else .ok c
  | none, none =>
    match get_remote_raw config refname with
    | none => .error .panic
    | some remote =>
      match get_merge config refname with
      | none => .error .panic
      | some merge =>
        let upstream_is_exists :=
          match remote_heads_per_url.lookup remote with
          | some heads => heads.contains merge
          | none => false
        if upstream_is_exists && branch_is_merged then
          .ok (((c.pushMsg "merged local, merged remote: the branch is merged, but forgot to delete").addMergedLocal
            refname).addMergedRemote ⟨remote, merge⟩)
        else if branch_is_merged then
          .ok ((c.pushMsg "merged local: the branch is merged, and deleted").addMergedLocal
            refname)
        else if !upstream_is_exists then
          .ok ((c.pushMsg "the branch is not merged but the remote is gone somehow").addStrayLocal
            refname)
        else
          .ok (c.pushMsg "skip: the branch is alive")

/-- Embeds classify of src/core.rs.  The base parameter is the refname of
the base RemoteTrackingBranch; now models the clock. -/
def classify (repo : Repo) (config : Config) (now : Nat)
    (merged_locals : Finset String)
    (remote_heads_per_url : List (String × List String))
    (base refname : String) : Except GitError Classification :=
  match Ref.from_name repo refname with
  | .error e => .error e
  | .ok branch =>
    match (if refname ∈ merged_locals then .ok true
           else is_merged repo now base refname : Except GitError Bool) with
    | .error e => .error e
    | .ok branch_is_merged =>
      match fetch_state repo config now base refname branch branch_is_merged with
      | .error e => .error e
      | .ok fetch =>
        match push_state repo config now base refname branch branch_is_merged
            fetch with
        | .error e => .error e
        | .ok push =>
          dispatch repo config remote_heads_per_url refname branch_is_merged
            fetch push
            { branch := branch, branch_is_merged := branch_is_merged,
              fetch := fetch, push := push, messages := [],
              result := .empty }

/-- The four original classifications recorded in keep-back reasons, as
the OriginalClassification enum of src/core.rs. -/
inductive OriginalClassification where
  | MergedLocal
  | StrayLocal
  | MergedRemote
  | StrayRemote
deriving DecidableEq, Repr

/-- Why a candidate was kept back, as the Reason struct of src/core.rs. -/
structure Reason where
  original_classification : OriginalClassification
  message : String
deriving DecidableEq, Repr

/-- A finite map sending every key of a finite set to one fixed value;
this models a batch of insertions with a shared reason. -/
def finmapOfSet {K V : Type} [DecidableEq K] (s : Finset K) (r : V) :
    Finmap (fun _ : K => V) :=
  ⟨s.val.map (fun k => ⟨k, r⟩), by
    rw [← Multiset.nodup_keys]
    simpa [Multiset.keys, Multiset.map_map, Function.comp] using s.nodup⟩

/-- Models HashMap::extend: the new entries overwrite the old ones. -/
def extendMap {K V : Type} [DecidableEq K]
    (m other : Finmap (fun _ : K => V)) : Finmap (fun _ : K => V) :=
  other ∪ m

/-- The plan under construction, as the MergedOrStrayAndKeptBacks struct
of src/core.rs. -/
structure MergedOrStrayAndKeptBacks where
  to_delete : MergedOrStray
  kept_backs : Finmap (fun _ : String => Reason)
  kept_back_remotes : Finmap (fun _ : RemoteBranch => Reason)
deriving DecidableEq

/-- Embeds keep_branches of src/core.rs: resolve every refname of the
to-delete set (failing when one is missing), collect the protected ones
with the given reason and remove them from the set. -/
def keep_branches (repo : Repo) (protected_refs : Finset String)
    (reason : Reason) (references : Finset String) :
    Except GitError ((Finmap fun _ : String => Reason) × Finset String) :=
  if ∀ r ∈ references, (repo.refs.lookup r).isSome then
    let bag := references.filter (fun r => r ∈ protected_refs)
    .ok (finmapOfSet bag reason, references \ bag)
  else .error .refNotFound

/-- The protection test of keep_remote_branches in src/core.rs: the
remote branch is kept back when it has a remote-tracking branch whose
refname is protected. -/
def trackedProtected (repo : Repo) (protected_refs : Finset String)
    (rb : RemoteBranch) : Bool :=
  match from_remote_branch repo rb with
  | .ok (some tr) => decide (tr ∈ protected_refs)
  | .ok none => false
  | .error _ => false

/-- Embeds keep_remote_branches of src/core.rs: collect the remote
branches whose remote-tracking refname is protected, with the given
reason, and remove them from the set.  The tracking conversion of the
model is total, so no failure arises here. -/
def keep_remote_branches (repo : Repo) (protected_refs : Finset String)
    (reason : Reason) (remote_branches : Finset RemoteBranch) :
    Except GitError ((Finmap fun _ : RemoteBranch => Reason) × Finset RemoteBranch) :=
  let kept := remote_branches.filter
    (fun rb => trackedProtected repo protected_refs rb)
  .ok (finmapOfSet kept reason, remote_branches \ kept)

/-- The shared body of keep_base and keep_protected of src/core.rs: run
keep_branches on both local sets and keep_remote_branches on both remote
sets with the given message, extending the kept-back maps. -/
def keep_refs (repo : Repo) (prefs : Finset String) (msg : String)
    (s : MergedOrStrayAndKeptBacks) :
    Except GitError MergedOrStrayAndKeptBacks :=
  match keep_branches repo prefs ⟨.MergedLocal, msg⟩
      s.to_delete.merged_locals with
  | .error e => .error e
  | .ok (k1, ml) =>
    match keep_branches repo prefs ⟨.StrayLocal, msg⟩
        s.to_delete.stray_locals with
    | .error e => .error e
    | .ok (k2, sl) =>
      match keep_remote_branches repo prefs ⟨.MergedRemote, msg⟩
          s.to_delete.merged_remotes with
      | .error e => .error e
      | .ok (r1, mr) =>
        match keep_remote_branches repo prefs ⟨.StrayRemote, msg⟩
            s.to_delete.stray_remotes with
        | .error e => .error e
        | .ok (r2, sr) =>
          .ok { to_delete := ⟨ml, sl, mr, sr⟩,
                kept_backs := extendMap (extendMap s.kept_backs k1) k2,
                kept_back_remotes :=
                  extendMap (extendMap s.kept_back_remotes r1) r2 }

/-- Embeds keep_base of src/core.rs. -/
def keep_base (repo : Repo) (base_refs : Finset String)
    (s : MergedOrStrayAndKeptBacks) :
    Except GitError MergedOrStrayAndKeptBacks :=
  keep_refs repo base_refs "a base branch" s

/-- Embeds keep_protected of src/core.rs. -/
def keep_protected (repo : Repo) (protected_refs : Finset String)
    (s : MergedOrStrayAndKeptBacks) :
    Except GitError MergedOrStrayAndKeptBacks :=
  keep_refs repo protected_refs "a protected branch" s

/-- Does the refname of the remote branch start with the heads path. -/
def refIsHeads (rb : RemoteBranch) : Bool :=
  strStarts rb.refname "refs/heads/"

/-- Embeds keep_non_heads_remotes of src/core.rs: remote candidates whose
refname is outside the heads namespace move to the kept-back map. -/
def keep_non_heads_remotes (s : MergedOrStrayAndKeptBacks) :
    MergedOrStrayAndKeptBacks :=
  let keepM := s.to_delete.merged_remotes.filter (fun rb => refIsHeads rb)
  let kickM := s.to_delete.merged_remotes.filter (fun rb => !refIsHeads rb)
  let keepS := s.to_delete.stray_remotes.filter (fun rb => refIsHeads rb)
  let kickS := s.to_delete.stray_remotes.filter (fun rb => !refIsHeads rb)
  { to_delete :=
      { s.to_delete with merged_remotes := keepM, stray_remotes := keepS },
    kept_backs := s.kept_backs,
    kept_back_remotes :=
      extendMap
        (extendMap s.kept_back_remotes
          (finmapOfSet kickM ⟨.MergedRemote, "a non-heads remote branch"⟩))
        (finmapOfSet kickS ⟨.StrayRemote, "a non-heads remote branch"⟩) }

/-- Modelled from the spec: the DeleteFilter of src/args.rs is not under
src; it carries four independent predicates deciding which candidate
kinds are in scope. -/
structure DeleteFilter where
  filter_merged_local : Bool
  filter_stray_local : Bool
  filter_merged_remote : String → Bool
  filter_stray_remote : String → Bool

/-- Embeds apply_filter of src/core.rs: candidates failing their
predicate move to the kept-back maps; the function always returns ok. -/
def apply_filter (filter : DeleteFilter) (s : MergedOrStrayAndKeptBacks) :
    Except GitError MergedOrStrayAndKeptBacks :=
  let p1 :=
    if filter.filter_merged_local then
      (s.to_delete.merged_locals, s.kept_backs)
    else
      (∅, extendMap s.kept_backs
        (finmapOfSet s.to_delete.merged_locals
          ⟨.MergedLocal, "out of filter scope"⟩))
  let p2 :=
    if filter.filter_stray_local then
      (s.to_delete.stray_locals, p1.2)
    else
      (∅, extendMap p1.2
        (finmapOfSet s.to_delete.stray_locals
          ⟨.StrayLocal, "out of filter scope"⟩))
  let keepM := s.to_delete.merged_remotes.filter
    (fun rb => filter.filter_merged_remote rb.remote)
  let kickM := s.to_delete.merged_remotes.filter
    (fun rb => !filter.filter_merged_remote rb.remote)
  let keepS := s.to_delete.stray_remotes.filter
    (fun rb => filter.filter_stray_remote rb.remote)
  let kickS := s.to_delete.stray_remotes.filter
    (fun rb => !filter.filter_stray_remote rb.remote)
  .ok { to_delete := ⟨p1.1, p2.1, keepM, keepS⟩,
        kept_backs := p2.2,
        kept_back_remotes :=
          extendMap
            (extendMap s.kept_back_remotes
              (finmapOfSet kickM ⟨.MergedRemote, "out of filter scope"⟩))
            (finmapOfSet kickS ⟨.StrayRemote, "out of filter scope"⟩) }

/-- Embeds adjust_not_to_detach of src/core.rs: when the head is on a
branch, remove that branch from both local to-delete sets, recording the
reason; resolving the head may fail. -/
def adjust_not_to_detach (repo : Repo) (s : MergedOrStrayAndKeptBacks) :
    Except GitError MergedOrStrayAndKeptBacks :=
  if repo.headDetached then .ok s
  else
    match repo.headName with
    | none => .error .refNotFound
    | some head_name =>
      let s1 :=
        if head_name ∈ s.to_delete.merged_locals then
          { s with
            to_delete :=
              { s.to_delete with
                merged_locals := s.to_delete.merged_locals.erase head_name },
            kept_backs := s.kept_backs.insert head_name
              ⟨.MergedLocal, "not to make detached HEAD"⟩ }
        else s
      let s2 :=
        if head_name ∈ s1.to_delete.stray_locals then
          { s1 with
            to_delete :=
              { s1.to_delete with
                stray_locals := s1.to_delete.stray_locals.erase head_name },
            kept_backs := s1.kept_backs.insert head_name
              ⟨.StrayLocal, "not to make detached HEAD"⟩ }
        else s1
      .ok s2

/-- Modelled from the spec: the driver running the five guards in the
fixed order of the planner section lives outside src; base protection,
pattern protection, the non-heads filter, the delete-filter scope and
detached-head avoidance run in this order. -/
def plan_guards (repo : Repo) (base_refs protected_refs : Finset String)
    (filter : DeleteFilter) (s : MergedOrStrayAndKeptBacks) :
    Except GitError MergedOrStrayAndKeptBacks :=
  match keep_base repo base_refs s with
  | .error e => .error e
  | .ok s1 =>
    match keep_protected repo protected_refs s1 with
    | .error e => .error e
    | .ok s2 =>
      match apply_filter filter (keep_non_heads_remotes s2) with
      | .error e => .error e
      | .ok s4 => adjust_not_to_detach repo s4

deriving instance DecidableEq for Except

/-- Accumulation of per-branch results into one MergedOrStray, as the
fold of MergedOrStray::accumulate over all classifications. -/
def accumulateResults (cs : List Classification) : MergedOrStray :=
  cs.foldl (fun m c => m.accumulate c.result) .empty

/-- A placeholder classification used only to totalize extraction of a
concrete classify result. -/
def dummyClassification : Classification :=
  ⟨⟨"", 0⟩, false, none, none, [], .empty⟩

/-- Extract the ok value of a concrete classify run. -/
def classifyOk (x : Except GitError Classification) : Classification :=
  match x with
  | .ok c => c
  | .error _ => dummyClassification

/-- The remote branch shared by the two branches of the accumulation
counterexample. -/
def sharedRB : RemoteBranch := ⟨"origin", "refs/heads/shared"⟩

/-- The commit id of the synthetic commit of the squash scenario. -/
def sqOid : Nat := commitOid (synth_commit 42 1 0)

/-- A repository where the feature branch was squash-merged into the base:
the base head has the squash commit as parent, the squash commit has the
same content hash the oracle reconstructs, and the feature branch itself
is not an ancestor of the base. -/
def repoSq : Repo :=
  { commits := [(1, ⟨10, [], "alice", "a@x", 0, "root"⟩),
                (sqOid, synth_commit 42 1 0),
                (2, ⟨42, [sqOid], "alice", "a@x", 5, "squash-merge of feat"⟩),
                (3, ⟨42, [1], "bob", "b@x", 3, "feat work"⟩)],
    refs := [("refs/remotes/origin/main", 2), ("refs/heads/feat", 3)],
    headDetached := false, headName := some "refs/heads/other",
    trackingToRemote := [], remoteToTracking := [] }

/-- A repository with two root commits sharing no history. -/
def repoUnrel : Repo :=
  { commits := [(1, ⟨10, [], "a", "a", 0, "r1"⟩), (2, ⟨11, [], "a", "a", 0, "r2"⟩)],
    refs := [("refs/heads/a", 1), ("refs/heads/b", 2)],
    headDetached := false, headName := none,
    trackingToRemote := [], remoteToTracking := [] }

/-- A repository where two local branches share one remote upstream: the
upstream commit is unmerged, branch b1 sits on the upstream commit, and
branch b2 is merged into the base. -/
def repoShared : Repo :=
  { commits := [(1, ⟨1, [], "a", "a", 0, "root"⟩), (2, ⟨2, [1], "a", "a", 0, "v"⟩),
                (3, ⟨3, [2], "a", "a", 0, "X"⟩), (4, ⟨99, [1], "a", "a", 0, "u"⟩)],
    refs := [("refs/remotes/origin/main", 3), ("refs/remotes/origin/shared", 4),
             ("refs/heads/b1", 4), ("refs/heads/b2", 2)],
    headDetached := false, headName := some "refs/heads/keep",
    trackingToRemote := [("refs/remotes/origin/shared", ("origin", "refs/heads/shared"))],
    remoteToTracking := [] }

def cfgShared : Config :=
  { fetchUpstream := [("refs/heads/b1", "refs/remotes/origin/shared"),
                      ("refs/heads/b2", "refs/remotes/origin/shared")],
    pushUpstream := [], remoteRaw := [], mergeCfg := [] }

/-- The hint set of the accumulation counterexample: branch b1 is hinted
merged although the oracle does not see its commit as merged. -/
def hintShared : Finset String := {"refs/heads/b1"}

/-- The classification of branch b1 in the shared-upstream repository. -/
def c3c1 : Classification :=
  classifyOk (classify repoShared cfgShared 0 hintShared []
    "refs/remotes/origin/main" "refs/heads/b1")

/-- The classification of branch b2 in the shared-upstream repository. -/
def c3c2 : Classification :=
  classifyOk (classify repoShared cfgShared 0 hintShared []
    "refs/remotes/origin/main" "refs/heads/b2")

/-- A repository with a merged branch p that has a push upstream. -/
def repoPush : Repo :=
  { commits := [(1, ⟨1, [], "a", "a", 0, "root"⟩), (2, ⟨2, [1], "a", "a", 0, "p"⟩),
                (3, ⟨3, [2], "a", "a", 0, "main"⟩)],
    refs := [("refs/remotes/origin/main", 3), ("refs/heads/p", 2),
             ("refs/remotes/origin/p", 2)],
    headDetached := false, headName := some "refs/heads/keep",
    trackingToRemote := [("refs/remotes/origin/p", ("origin", "refs/heads/p"))],
    remoteToTracking := [] }

/-- The configuration giving branch p a push upstream and no fetch
upstream. -/
def cfgPush : Config :=
  { fetchUpstream := [], pushUpstream := [("refs/heads/p", "refs/remotes/origin/p")],
    remoteRaw := [], mergeCfg := [] }

/-- The classification of branch p in the push-upstream repository. -/
def c6c : Classification :=
  classifyOk (classify repoPush cfgPush 0 ∅ [] "refs/remotes/origin/main"
    "refs/heads/p")

/-- A repository with a merged branch legacy that has raw remote and
merge configuration but no resolvable upstream. -/
def repoFall : Repo :=
  { commits := [(1, ⟨1, [], "a", "a", 0, "root"⟩),
                (2, ⟨2, [1], "a", "a", 0, "legacy"⟩),
                (3, ⟨3, [2], "a", "a", 0, "main"⟩)],
    refs := [("refs/remotes/origin/main", 3), ("refs/heads/legacy", 2)],
    headDetached := false, headName := some "refs/heads/keep",
    trackingToRemote := [], remoteToTracking := [] }

/-- The raw-only configuration of the legacy branch. -/
def cfgFall : Config :=
  { fetchUpstream := [], pushUpstream := [],
    remoteRaw := [("refs/heads/legacy", "https://example.com/r.git")],
    mergeCfg := [("refs/heads/legacy", "refs/heads/legacy")] }

/-- The classification of the legacy branch. -/
def c7c : Classification :=
  classifyOk (classify repoFall cfgFall 0 ∅ [] "refs/remotes/origin/main"
    "refs/heads/legacy")

/-- A repository used by the planner scenarios: two local branches and a
head sitting on branch x. -/
def repoW : Repo :=
  { commits := [], refs := [("refs/heads/x", 1), ("refs/heads/y", 2)],
    headDetached := false, headName := some "refs/heads/x",
    trackingToRemote := [], remoteToTracking := [] }

/-- A non-heads remote candidate. -/
def rbPull : RemoteBranch := ⟨"origin", "refs/pulls/1/head"⟩

/-- A remote candidate with no local remote-tracking branch. -/
def rbU : RemoteBranch := ⟨"origin", "refs/heads/u"⟩

/-- A plan state scheduling branch x, branch y and the non-heads remote
candidate for deletion. -/
def sW : MergedOrStrayAndKeptBacks :=
  { to_delete := ⟨{"refs/heads/x"}, {"refs/heads/y"}, {rbPull}, ∅⟩,
    kept_backs := ∅, kept_back_remotes := ∅ }

/-- The delete filter admitting everything. -/
def fAll : DeleteFilter :=
  ⟨true, true, fun _ => true, fun _ => true⟩

/-- The delete filter excluding merged locals. -/
def fNoML : DeleteFilter :=
  ⟨false, true, fun _ => true, fun _ => true⟩

/-- A plan state scheduling only the untracked remote candidate and
branch x. -/
def sU : MergedOrStrayAndKeptBacks :=
  { to_delete := ⟨{"refs/heads/x"}, ∅, {rbU}, ∅⟩,
    kept_backs := ∅, kept_back_remotes := ∅ }

/-- A plan state scheduling only the head branch x. -/
def sC2 : MergedOrStrayAndKeptBacks :=
  { to_delete := ⟨{"refs/heads/x"}, ∅, ∅, ∅⟩,
    kept_backs := ∅, kept_back_remotes := ∅ }

/-- The plan produced from sC2 by the guard pipeline: branch x is kept
back to avoid a detached head. -/
def tC2 : MergedOrStrayAndKeptBacks :=
  { to_delete := ⟨∅, ∅, ∅, ∅⟩,
    kept_backs := (∅ : Finmap (fun _ : String => Reason)).insert
      "refs/heads/x" ⟨.MergedLocal, "not to make detached HEAD"⟩,
    kept_back_remotes := ∅ }

/-- A plan state scheduling a refname that does not resolve in any of the
scenario repositories. -/
def sBad : MergedOrStrayAndKeptBacks :=
  { to_delete := ⟨{"refs/heads/gone"}, ∅, ∅, ∅⟩,
    kept_backs := ∅, kept_back_remotes := ∅ }

/-- The plan produced by base protection from sW with base set x. -/
def tIdem1 : MergedOrStrayAndKeptBacks :=
  { to_delete := ⟨∅, {"refs/heads/y"}, {rbPull}, ∅⟩,
    kept_backs := (∅ : Finmap (fun _ : String => Reason)).insert
      "refs/heads/x" ⟨.MergedLocal, "a base branch"⟩,
    kept_back_remotes := ∅ }

/-- The plan produced by pattern protection from sW with protected set
y. -/
def tIdem2 : MergedOrStrayAndKeptBacks :=
  { to_delete := ⟨{"refs/heads/x"}, ∅, {rbPull}, ∅⟩,
    kept_backs := (∅ : Finmap (fun _ : String => Reason)).insert
      "refs/heads/y" ⟨.StrayLocal, "a protected branch"⟩,
    kept_back_remotes := ∅ }

/-- The plan produced by the delete-filter scope guard from sW with the
merged-locals predicate off. -/
def tIdem3 : MergedOrStrayAndKeptBacks :=
  { to_delete := ⟨∅, {"refs/heads/y"}, {rbPull}, ∅⟩,
    kept_backs := (∅ : Finmap (fun _ : String => Reason)).insert
      "refs/heads/x" ⟨.MergedLocal, "out of filter scope"⟩,
    kept_back_remotes := ∅ }

/-- The plan produced by detached-head avoidance from sW. -/
def tIdem4 : MergedOrStrayAndKeptBacks :=
  { to_delete := ⟨∅, {"refs/heads/y"}, {rbPull}, ∅⟩,
    kept_backs := (∅ : Finmap (fun _ : String => Reason)).insert
      "refs/heads/x" ⟨.MergedLocal, "not to make detached HEAD"⟩,
    kept_back_remotes := ∅ }

/-! ### Helper lemmas about the finite-map and finite-set operations -/

theorem mem_finmapOfSet {K V : Type} [DecidableEq K] {s : Finset K} {r : V}
    {k : K} : k ∈ finmapOfSet s r ↔ k ∈ s := by
  simp [finmapOfSet, Finmap.mem_def, Multiset.keys, Multiset.map_map,
    Function.comp]

theorem finmapOfSet_empty {K V : Type} [DecidableEq K] (r : V) :
    finmapOfSet (∅ : Finset K) r = ∅ :=
  Finmap.ext rfl

theorem extendMap_empty {K V : Type} [DecidableEq K]
    (m : Finmap (fun _ : K => V)) : extendMap m ∅ = m :=
  Finmap.empty_union

theorem mem_extendMap {K V : Type} [DecidableEq K]
    {m o : Finmap (fun _ : K => V)} {k : K} :
    k ∈ extendMap m o ↔ k ∈ o ∨ k ∈ m :=
  Finmap.mem_union

theorem filter_sdiff_filter_eq_empty {K : Type} [DecidableEq K]
    (s : Finset K) (p : K → Prop) [DecidablePred p] :
    ((s \ s.filter p).filter p) = ∅ := by
  ext x
  simp only [Finset.mem_filter, Finset.mem_sdiff, Finset.not_mem_empty,
    iff_false, not_and]
  tauto

theorem filter_filter_self {K : Type} [DecidableEq K]
    (s : Finset K) (p : K → Prop) [DecidablePred p] :
    ((s.filter p).filter p) = s.filter p := by
  ext x
  simp only [Finset.mem_filter]
  tauto

theorem filter_bool_not_filter {K : Type} [DecidableEq K]
    (s : Finset K) (p : K → Bool) :
    ((s.filter (fun x => p x)).filter (fun x => !p x)) = ∅ := by
  ext x
  simp [Finset.mem_filter]

theorem filter_false_of_filter_true {K : Type} [DecidableEq K]
    (s : Finset K) (p : K → Bool) :
    ((s.filter (fun x => p x = true)).filter (fun x => p x = false)) = ∅ := by
  ext x
  simp only [Finset.mem_filter, Finset.not_mem_empty, iff_false, not_and]
  intro h
  simp [h.2]

/-! ### Helper lemmas about ancestry and merge bases -/

theorem reachableFuel_refl (repo : Repo) (fuel c : Nat) :
    reachableFuel repo fuel c c = true := by
  cases fuel <;> simp [reachableFuel]

theorem isAncestorB_refl (repo : Repo) (c : Nat) :
    isAncestorB repo c c = true :=
  reachableFuel_refl _ _ _

theorem mergeBase_isSome_of_ancestor {repo : Repo} {a b : Nat}
    (h : isAncestorB repo a b = true) :
    ∃ m, mergeBase repo a b = some m := by
  have hb : b ∈ (a :: b :: repo.commits.map Prod.fst).filter
      (fun o => isAncestorB repo a o && isAncestorB repo b o) := by
    simp [List.mem_filter, h, isAncestorB_refl]
  have hne := List.ne_nil_of_mem hb
  have hs := List.head?_isSome.mpr hne
  rcases Option.isSome_iff_exists.mp hs with ⟨m, hm⟩
  exact ⟨m, hm⟩

theorem mergeBase_mem {repo : Repo} {a b m : Nat}
    (h : mergeBase repo a b = some m) :
    m = a ∨ m = b ∨ m ∈ repo.commits.map Prod.fst := by
  have hm : m ∈ (a :: b :: repo.commits.map Prod.fst).filter
      (fun o => isAncestorB repo a o && isAncestorB repo b o) :=
    List.mem_of_mem_head? (Option.mem_def.mpr h)
  have := (List.mem_filter.mp hm).1
  simpa using this

theorem lookupCommit_isSome_of_mem {repo : Repo} {o : Nat}
    (h : o ∈ repo.commits.map Prod.fst) :
    (lookupCommit repo o).isSome = true := by
  simp only [lookupCommit]
  rw [List.lookup_isSome_iff]
  rcases List.mem_map.mp h with ⟨p, hp, rfl⟩
  exact ⟨p, hp, by simp⟩

theorem lookupCommit_isSome_of_peel {repo : Repo} {r : String} {o : Nat}
    (h : peelToCommit repo r = some o) :
    (lookupCommit repo o).isSome = true := by
  unfold peelToCommit at h
  split at h
  · split at h
    · cases h
      assumption
    · cases h
  · cases h

theorem lookupCommit_isSome_of_mergeBase {repo : Repo} {base cand : String}
    {b c m : Nat} (hb : peelToCommit repo base = some b)
    (hc : peelToCommit repo cand = some c)
    (hm : mergeBase repo b c = some m) :
    (lookupCommit repo m).isSome = true := by
  rcases mergeBase_mem hm with rfl | rfl | hmem
  · exact lookupCommit_isSome_of_peel hb
  · exact lookupCommit_isSome_of_peel hc
  · exact lookupCommit_isSome_of_mem hmem

theorem lookupCommit_addCommit_isSome {repo : Repo} {o : Nat} (c : Commit)
    (h : (lookupCommit repo o).isSome = true) :
    (lookupCommit (addCommit repo c) o).isSome = true := by
  simp only [lookupCommit, addCommit, List.lookup_cons]
  split
  · rfl
  · exact h

theorem peelToCommit_addCommit {repo : Repo} {r : String} {o : Nat}
    (c : Commit) (h : peelToCommit repo r = some o) :
    peelToCommit (addCommit repo c) r = some o := by
  unfold peelToCommit at h ⊢
  split at h
  · rename_i o' hl
    rw [show (addCommit repo c).refs = repo.refs from rfl, hl]
    split at h
    · cases h
      rename_i hs
      simp [lookupCommit_addCommit_isSome c hs]
    · cases h
  · cases h

/-! ### C1: the merge oracle -/

/-- C1: for every base branch and candidate branch that both resolve to
commits, is_merged returns true exactly when the candidate tip is
ancestry-reachable from the base tip, or the synthetic commit whose tree
is the tree of the candidate and whose single parent is the merge base of
the two is ancestry-reachable from the base tip. -/
theorem is_merged_iff (repo : Repo) (now : Nat) (base cand : String)
    (b c ct : Nat)
    (hb : peelToCommit repo base = some b)
    (hc : peelToCommit repo cand = some c)
    (ht : treeOf repo cand = some ct) :
    is_merged repo now base cand = .ok true ↔
      (isAncestorB repo b c = true ∨
        ∃ m, mergeBase repo b c = some m ∧
          isAncestorB (addCommit repo (synth_commit ct m now)) b
            (commitOid (synth_commit ct m now)) = true) := by
  simp only [is_merged, hb, hc]
  cases hmb : mergeBase repo b c with
  | none =>
    constructor
    · intro hcontra
      cases hcontra
    · rintro (ha | ⟨m, hm, _⟩)
      · rcases mergeBase_isSome_of_ancestor ha with ⟨m, hm⟩
        rw [hmb] at hm
        cases hm
      · cases hm
  | some m =>
    have hrl : is_merged_by_rev_list repo (.ref base) (.ref cand) =
        .ok (isAncestorB repo b c) := by
      simp [is_merged_by_rev_list, resolveRev, hb, hc]
    rw [hrl]
    cases hA : isAncestorB repo b c with
    | true =>
      simp [hA]
    | false =>
      simp only [is_squash_merged, ht]
      rw [if_pos (lookupCommit_isSome_of_mergeBase hb hc hmb)]
      have hb2 : peelToCommit (addCommit repo (synth_commit ct m now)) base =
          some b := peelToCommit_addCommit _ hb
      simp [is_merged_by_rev_list, resolveRev, hb2, hA]

/-- Witness for C1 at the squash-merge repository: the hypotheses hold
concretely and the squash disjunct makes the oracle answer true. -/
theorem is_merged_iff_witness :
    is_merged repoSq 0 "refs/remotes/origin/main" "refs/heads/feat" =
      .ok true :=
  (is_merged_iff repoSq 0 "refs/remotes/origin/main" "refs/heads/feat" 2 3 42
    (by decide) (by decide) (by decide)).mpr
    (Or.inr ⟨1, by decide, by decide⟩)

/-! ### C4: missing merge base -/

/-- C4 counterexample: in a repository with two unrelated root commits,
both refs resolve, the merge base is none, and is_merged fails with an
error instead of returning false. -/
theorem c4_counterexample :
    peelToCommit repoUnrel "refs/heads/a" = some 1 ∧
    peelToCommit repoUnrel "refs/heads/b" = some 2 ∧
    mergeBase repoUnrel 1 2 = none ∧
    is_merged repoUnrel 0 "refs/heads/a" "refs/heads/b" =
      .error .noMergeBase ∧
    is_merged repoUnrel 0 "refs/heads/a" "refs/heads/b" ≠ .ok false := by
  decide

/-- C4 amended: when base and candidate resolve but share no common
history, is_merged propagates the merge-base failure as an error rather
than returning false. -/
theorem is_merged_error_of_no_merge_base (repo : Repo) (now : Nat)
    (base cand : String) (b c : Nat)
    (hb : peelToCommit repo base = some b)
    (hc : peelToCommit repo cand = some c)
    (hm : mergeBase repo b c = none) :
    is_merged repo now base cand = .error .noMergeBase := by
  simp only [is_merged, hb, hc, hm]

/-- Witness for the amended C4 at the unrelated-roots repository. -/
theorem is_merged_error_of_no_merge_base_witness :
    is_merged repoUnrel 1 "refs/heads/a" "refs/heads/b" =
      .error .noMergeBase :=
  is_merged_error_of_no_merge_base repoUnrel 1 "refs/heads/a" "refs/heads/b"
    1 2 (by decide) (by decide) (by decide)

/-! ### C5: identity of the synthetic commit -/

/-- C5 counterexample: the squash-test commits of two runs at different
clock times agree on the fixed name, email, message, tree and parent, yet
their commit ids differ, because the signature timestamp enters the
content hash. -/
theorem c5_counterexample :
    (synth_commit 5 7 0).sigName = (synth_commit 5 7 1).sigName ∧
    (synth_commit 5 7 0).sigEmail = (synth_commit 5 7 1).sigEmail ∧
    (synth_commit 5 7 0).message = (synth_commit 5 7 1).message ∧
    (synth_commit 5 7 0).tree = (synth_commit 5 7 1).tree ∧
    (synth_commit 5 7 0).parents = (synth_commit 5 7 1).parents ∧
    commitOid (synth_commit 5 7 0) ≠ commitOid (synth_commit 5 7 1) := by
  decide

/-- C5 amended: two runs of the squash test construct the same commit id
exactly when the candidate tree, the merge-base parent and the signature
timestamp all coincide; name, email and message are fixed, but the
timestamp is read from the clock, so identity is stable only at a fixed
time. -/
theorem synth_commit_id_eq_iff (t m n tt mm nn : Nat) :
    commitOid (synth_commit t m n) = commitOid (synth_commit tt mm nn) ↔
      (t = tt ∧ m = mm ∧ n = nn) := by
  constructor
  · intro h
    simp only [commitOid, synth_commit] at h
    rw [Nat.pair_eq_pair] at h
    obtain ⟨h1, h2⟩ := h
    rw [Nat.pair_eq_pair] at h2
    obtain ⟨h3, h4⟩ := h2
    rw [Nat.pair_eq_pair] at h4
    obtain ⟨h5, _⟩ := h4
    have h6 := Encodable.encode_injective h5
    simp only [List.cons.injEq, and_true] at h6
    exact ⟨h3, h6, h1⟩
  · rintro ⟨rfl, rfl, rfl⟩
    rfl

/-! ### C2: the head survives the planner -/

theorem adjust_head_removed {repo : Repo}
    {s t : MergedOrStrayAndKeptBacks} {h : String}
    (hdet : repo.headDetached = false) (hname : repo.headName = some h)
    (hrun : adjust_not_to_detach repo s = .ok t) :
    h ∉ t.to_delete.merged_locals ∧ h ∉ t.to_delete.stray_locals := by
  simp only [adjust_not_to_detach, hdet, hname, Bool.false_eq_true,
    if_false] at hrun
  split_ifs at hrun with h1 h2 h2 <;>
    (injection hrun with hX; subst hX) <;>
    constructor <;> simp_all [Finset.not_mem_erase]

/-- C2: after the five guards have run in order, if the working head is
on a branch, that branch refname is in neither local to-delete set of the
final plan, for every input plan state. -/
theorem plan_guards_head_safe (repo : Repo) (B P : Finset String)
    (f : DeleteFilter) (s t : MergedOrStrayAndKeptBacks) (h : String)
    (hrun : plan_guards repo B P f s = .ok t)
    (hdet : repo.headDetached = false)
    (hname : repo.headName = some h) :
    h ∉ t.to_delete.merged_locals ∧ h ∉ t.to_delete.stray_locals := by
  unfold plan_guards at hrun
  split at hrun
  · cases hrun
  · split at hrun
    · cases hrun
    · split at hrun
      · cases hrun
      · exact adjust_head_removed hdet hname hrun

/-- Witness for C2: running the pipeline on a plan scheduling the head
branch leaves the head out of both local to-delete sets. -/
theorem plan_guards_head_safe_witness :
    "refs/heads/x" ∉ tC2.to_delete.merged_locals ∧
    "refs/heads/x" ∉ tC2.to_delete.stray_locals :=
  plan_guards_head_safe repoW ∅ ∅ fAll sC2 tC2 "refs/heads/x"
    (by decide) (by decide) (by decide)

/-! ### Normal form of the protection guards -/

theorem keep_refs_eq (repo : Repo) (P : Finset String) (msg : String)
    (s : MergedOrStrayAndKeptBacks) :
    keep_refs repo P msg s =
      if ∀ r ∈ s.to_delete.merged_locals, (repo.refs.lookup r).isSome then
        if ∀ r ∈ s.to_delete.stray_locals, (repo.refs.lookup r).isSome then
          .ok { to_delete :=
                  ⟨s.to_delete.merged_locals \
                     s.to_delete.merged_locals.filter (fun r => r ∈ P),
                   s.to_delete.stray_locals \
                     s.to_delete.stray_locals.filter (fun r => r ∈ P),
                   s.to_delete.merged_remotes \
                     s.to_delete.merged_remotes.filter
                       (fun rb => trackedProtected repo P rb),
                   s.to_delete.stray_remotes \
                     s.to_delete.stray_remotes.filter
                       (fun rb => trackedProtected repo P rb)⟩,
                kept_backs := extendMap (extendMap s.kept_backs
                  (finmapOfSet (s.to_delete.merged_locals.filter
                    (fun r => r ∈ P)) ⟨.MergedLocal, msg⟩))
                  (finmapOfSet (s.to_delete.stray_locals.filter
                    (fun r => r ∈ P)) ⟨.StrayLocal, msg⟩),
                kept_back_remotes := extendMap (extendMap s.kept_back_remotes
                  (finmapOfSet (s.to_delete.merged_remotes.filter
                    (fun rb => trackedProtected repo P rb))
                    ⟨.MergedRemote, msg⟩))
                  (finmapOfSet (s.to_delete.stray_remotes.filter
                    (fun rb => trackedProtected repo P rb))
                    ⟨.StrayRemote, msg⟩) }
        else .error .refNotFound
      else .error .refNotFound := by
  by_cases h1 : ∀ r ∈ s.to_delete.merged_locals, (repo.refs.lookup r).isSome
  · by_cases h2 : ∀ r ∈ s.to_delete.stray_locals, (repo.refs.lookup r).isSome
    · simp only [keep_refs, keep_branches, keep_remote_branches, if_pos h1,
        if_pos h2]
    · simp only [keep_refs, keep_branches, keep_remote_branches, if_pos h1,
        if_neg h2]
  · simp only [keep_refs, keep_branches, keep_remote_branches, if_neg h1]

theorem keep_refs_untracked_remote {repo : Repo} {P : Finset String}
    {msg : String} {s t : MergedOrStrayAndKeptBacks} {rb : RemoteBranch}
    (hrb : from_remote_branch repo rb = .ok none)
    (hrun : keep_refs repo P msg s = .ok t) :
    (rb ∈ s.to_delete.merged_remotes → rb ∈ t.to_delete.merged_remotes) ∧
    (rb ∈ s.to_delete.stray_remotes → rb ∈ t.to_delete.stray_remotes) ∧
    (rb ∉ s.kept_back_remotes → rb ∉ t.kept_back_remotes) := by
  have htp : trackedProtected repo P rb = false := by
    simp [trackedProtected, hrb]
  rw [keep_refs_eq] at hrun
  split_ifs at hrun with h1 h2
  · injection hrun with hrun
    subst hrun
    refine ⟨fun h => ?_, fun h => ?_, fun h => ?_⟩
    · exact Finset.mem_sdiff.mpr ⟨h, by simp [Finset.mem_filter, htp]⟩
    · exact Finset.mem_sdiff.mpr ⟨h, by simp [Finset.mem_filter, htp]⟩
    · intro hmem
      rcases mem_extendMap.mp hmem with hm | hm
      · rcases mem_finmapOfSet.mp hm with hm2
        simp [Finset.mem_filter, htp] at hm2
      · rcases mem_extendMap.mp hm with hm | hm
        · rcases mem_finmapOfSet.mp hm with hm2
          simp [Finset.mem_filter, htp] at hm2
        · exact h hm

theorem keep_refs_idem {repo : Repo} {P : Finset String} {msg : String}
    {s t : MergedOrStrayAndKeptBacks}
    (h : keep_refs repo P msg s = .ok t) :
    keep_refs repo P msg t = .ok t := by
  rw [keep_refs_eq] at h
  split_ifs at h with h1 h2
  · injection h with h
    subst h
    rw [keep_refs_eq]
    rw [if_pos (fun r hr => h1 r (Finset.mem_sdiff.mp hr).1),
      if_pos (fun r hr => h2 r (Finset.mem_sdiff.mp hr).1)]
    simp only [filter_sdiff_filter_eq_empty, Finset.sdiff_empty,
      finmapOfSet_empty, extendMap_empty]

theorem knh_idem (s : MergedOrStrayAndKeptBacks) :
    keep_non_heads_remotes (keep_non_heads_remotes s) =
      keep_non_heads_remotes s := by
  simp only [keep_non_heads_remotes, filter_filter_self,
    filter_bool_not_filter, finmapOfSet_empty, extendMap_empty]

theorem apply_filter_idem {f : DeleteFilter}
    {s t : MergedOrStrayAndKeptBacks} (h : apply_filter f s = .ok t) :
    apply_filter f t = .ok t := by
  unfold apply_filter at h
  injection h with h
  subst h
  unfold apply_filter
  cases hml : f.filter_merged_local <;> cases hsl : f.filter_stray_local <;>
    simp [hml, hsl, filter_filter_self, filter_bool_not_filter,
      filter_false_of_filter_true, finmapOfSet_empty, extendMap_empty]

theorem adjust_idem {repo : Repo} {s t : MergedOrStrayAndKeptBacks}
    (h : adjust_not_to_detach repo s = .ok t) :
    adjust_not_to_detach repo t = .ok t := by
  cases hd : repo.headDetached with
  | true =>
    unfold adjust_not_to_detach at h ⊢
    rw [hd] at h ⊢
    simp at h ⊢
  | false =>
    cases hn : repo.headName with
    | none =>
      unfold adjust_not_to_detach at h
      rw [hd, hn] at h
      simp at h
    | some h0 =>
      have hm := adjust_head_removed hd hn h
      unfold adjust_not_to_detach
      rw [hd, hn]
      simp [hm.1, hm.2]

/-! ### C8: which guards can fail -/

/-- C8 counterexample: base protection and pattern protection resolve
every scheduled local refname, so on a plan scheduling a refname that is
missing from the repository both guards return an error, refuting that
they always succeed. -/
theorem c8_counterexample :
    keep_base repoUnrel ∅ sBad = .error .refNotFound ∧
    keep_protected repoUnrel ∅ sBad = .error .refNotFound := by
  decide

/-- C8 amended: the delete-filter scope guard always succeeds (and the
non-heads filter is infallible by construction), while base protection,
pattern protection and detached-head avoidance can each propagate a
reference-resolution failure. -/
theorem guard_error_profile :
    (∀ (f : DeleteFilter) (s : MergedOrStrayAndKeptBacks),
      ∃ t, apply_filter f s = .ok t) ∧
    (∃ (repo : Repo) (B : Finset String) (s : MergedOrStrayAndKeptBacks),
      ∀ t, keep_base repo B s ≠ .ok t) ∧
    (∃ (repo : Repo) (P : Finset String) (s : MergedOrStrayAndKeptBacks),
      ∀ t, keep_protected repo P s ≠ .ok t) ∧
    (∃ (repo : Repo) (s : MergedOrStrayAndKeptBacks),
      ∀ t, adjust_not_to_detach repo s ≠ .ok t) := by
  refine ⟨fun f s => ⟨_, rfl⟩, ⟨repoUnrel, ∅, sBad, fun t h => ?_⟩,
    ⟨repoUnrel, ∅, sBad, fun t h => ?_⟩,
    ⟨repoUnrel, sBad, fun t h => ?_⟩⟩
  · rw [show keep_base repoUnrel ∅ sBad = .error .refNotFound from by decide]
      at h
    cases h
  · rw [show keep_protected repoUnrel ∅ sBad = .error .refNotFound from by
      decide] at h
    cases h
  · rw [show adjust_not_to_detach repoUnrel sBad = .error .refNotFound from by
      decide] at h
    cases h

/-! ### C9: idempotence of the guards -/

/-- C9: each of the five guards is idempotent: rerunning a guard with the
same arguments on the plan state its first application produced changes
neither the to-delete sets nor the kept-back maps. -/
theorem guards_idempotent (repo : Repo) (B P : Finset String)
    (f : DeleteFilter) (s : MergedOrStrayAndKeptBacks) :
    (∀ t, keep_base repo B s = .ok t → keep_base repo B t = .ok t) ∧
    (∀ t, keep_protected repo P s = .ok t → keep_protected repo P t = .ok t) ∧
    keep_non_heads_remotes (keep_non_heads_remotes s) =
      keep_non_heads_remotes s ∧
    (∀ t, apply_filter f s = .ok t → apply_filter f t = .ok t) ∧
    (∀ t, adjust_not_to_detach repo s = .ok t →
      adjust_not_to_detach repo t = .ok t) :=
  ⟨fun _ h => keep_refs_idem h, fun _ h => keep_refs_idem h, knh_idem s,
   fun _ h => apply_filter_idem h, fun _ h => adjust_idem h⟩

/-- Witness for C9: each guard rerun on its concrete first output leaves
it unchanged. -/
theorem guards_idempotent_witness :
    keep_base repoW {"refs/heads/x"} tIdem1 = .ok tIdem1 ∧
    keep_protected repoW {"refs/heads/y"} tIdem2 = .ok tIdem2 ∧
    keep_non_heads_remotes (keep_non_heads_remotes sW) =
      keep_non_heads_remotes sW ∧
    apply_filter fNoML tIdem3 = .ok tIdem3 ∧
    adjust_not_to_detach repoW tIdem4 = .ok tIdem4 :=
  ⟨(guards_idempotent repoW {"refs/heads/x"} ∅ fAll sW).1 tIdem1 (by decide),
   (guards_idempotent repoW ∅ {"refs/heads/y"} fAll sW).2.1 tIdem2 (by decide),
   (guards_idempotent repoW ∅ ∅ fAll sW).2.2.1,
   (guards_idempotent repoW ∅ ∅ fNoML sW).2.2.2.1 tIdem3 (by decide),
   (guards_idempotent repoW ∅ ∅ fAll sW).2.2.2.2 tIdem4 (by decide)⟩

/-! ### C10: remote candidates without a tracking branch -/

/-- C10: a remote candidate whose remote-tracking lookup yields none is
left in the to-delete sets by base protection and pattern protection and
is never added to the kept-back remotes, whatever the protected sets
hold. -/
theorem untracked_remote_never_kept (repo : Repo) (B P : Finset String)
    (s t u : MergedOrStrayAndKeptBacks) (rb : RemoteBranch)
    (hrb : from_remote_branch repo rb = .ok none)
    (hbase : keep_base repo B s = .ok t)
    (hprot : keep_protected repo P t = .ok u) :
    (rb ∈ s.to_delete.merged_remotes → rb ∈ t.to_delete.merged_remotes ∧
      rb ∈ u.to_delete.merged_remotes) ∧
    (rb ∈ s.to_delete.stray_remotes → rb ∈ t.to_delete.stray_remotes ∧
      rb ∈ u.to_delete.stray_remotes) ∧
    (rb ∉ s.kept_back_remotes → rb ∉ t.kept_back_remotes ∧
      rb ∉ u.kept_back_remotes) := by
  have h1 := keep_refs_untracked_remote hrb hbase
  have h2 := keep_refs_untracked_remote hrb hprot
  exact ⟨fun h => ⟨h1.1 h, h2.1 (h1.1 h)⟩,
    fun h => ⟨h1.2.1 h, h2.2.1 (h1.2.1 h)⟩,
    fun h => ⟨h1.2.2 h, h2.2.2 (h1.2.2 h)⟩⟩

/-- Witness for C10: the untracked remote candidate survives both
protection guards of a concrete run and stays out of the kept-back
remotes. -/
theorem untracked_remote_never_kept_witness :
    (rbU ∈ sU.to_delete.merged_remotes ∧ rbU ∈ sU.to_delete.merged_remotes) ∧
    rbU ∉ sU.kept_back_remotes ∧ rbU ∉ sU.kept_back_remotes :=
  ⟨(untracked_remote_never_kept repoW ∅ {"refs/heads/y"} sU sU
      sU rbU (by decide) (by decide) (by decide)).1 (by decide),
   (untracked_remote_never_kept repoW ∅ {"refs/heads/y"} sU sU
      sU rbU (by decide) (by decide) (by decide)).2.2 (by decide)⟩

/-! ### Field preservation through the classification helpers -/

theorem merged_remote_fields {c : Classification} {repo : Repo} {u : Ref}
    {cc : Classification} (h : c.merged_remote repo u = .ok cc) :
    cc.branch = c.branch ∧ cc.branch_is_merged = c.branch_is_merged ∧
    cc.fetch = c.fetch ∧ cc.push = c.push ∧
    cc.result.merged_locals = c.result.merged_locals ∧
    cc.result.stray_locals = c.result.stray_locals := by
  unfold Classification.merged_remote at h
  split at h
  · injection h with h
    subst h
    exact ⟨rfl, rfl, rfl, rfl, rfl, rfl⟩
  · cases h

theorem stray_remote_fields {c : Classification} {repo : Repo} {u : Ref}
    {cc : Classification} (h : c.stray_remote repo u = .ok cc) :
    cc.branch = c.branch ∧ cc.branch_is_merged = c.branch_is_merged ∧
    cc.fetch = c.fetch ∧ cc.push = c.push ∧
    cc.result.merged_locals = c.result.merged_locals ∧
    cc.result.stray_locals = c.result.stray_locals := by
  unfold Classification.stray_remote at h
  split at h
  · injection h with h
    subst h
    exact ⟨rfl, rfl, rfl, rfl, rfl, rfl⟩
  · cases h

theorem mosr_fields {c : Classification} {repo : Repo}
    {ms : UpstreamMergeState} {cc : Classification}
    (h : c.merged_or_stray_remote repo ms = .ok cc) :
    cc.branch = c.branch ∧ cc.branch_is_merged = c.branch_is_merged ∧
    cc.fetch = c.fetch ∧ cc.push = c.push ∧
    cc.result.merged_locals = c.result.merged_locals ∧
    cc.result.stray_locals = c.result.stray_locals := by
  unfold Classification.merged_or_stray_remote at h
  split_ifs at h
  · have hf := merged_remote_fields h
    exact hf
  · have hf := stray_remote_fields h
    exact hf

theorem dispatch_fields {repo : Repo} {config : Config}
    {heads : List (String × List String)} {refname : String} {bim : Bool}
    {fetch push : Option UpstreamMergeState} {c cc : Classification}
    (h : dispatch repo config heads refname bim fetch push c = .ok cc) :
    cc.branch = c.branch ∧ cc.branch_is_merged = c.branch_is_merged ∧
    cc.fetch = c.fetch ∧ cc.push = c.push := by
  unfold dispatch at h
  split at h
  · split_ifs at h
    · split at h
      · cases h
      · rename_i c1 heq
        have a := mosr_fields heq
        have b := mosr_fields h
        exact ⟨b.1.trans a.1, b.2.1.trans a.2.1, b.2.2.1.trans a.2.2.1,
          b.2.2.2.1.trans a.2.2.2.1⟩
    · split at h
      · cases h
      · rename_i c1 heq
        have a := mosr_fields heq
        have b := mosr_fields h
        exact ⟨b.1.trans a.1, b.2.1.trans a.2.1, b.2.2.1.trans a.2.2.1,
          b.2.2.2.1.trans a.2.2.2.1⟩
    · injection h with h
      subst h
      exact ⟨rfl, rfl, rfl, rfl⟩
  · split_ifs at h
    · have a := mosr_fields h
      exact ⟨a.1, a.2.1, a.2.2.1, a.2.2.2.1⟩
    · have a := merged_remote_fields h
      exact ⟨a.1, a.2.1, a.2.2.1, a.2.2.2.1⟩
    · injection h with h
      subst h
      exact ⟨rfl, rfl, rfl, rfl⟩
  · split_ifs at h
    · have a := mosr_fields h
      exact ⟨a.1, a.2.1, a.2.2.1, a.2.2.2.1⟩
    · have a := merged_remote_fields h
      exact ⟨a.1, a.2.1, a.2.2.1, a.2.2.2.1⟩
    · injection h with h
      subst h
      exact ⟨rfl, rfl, rfl, rfl⟩
  · split at h
    · cases h
    · split at h
      · cases h
      · simp only at h
        split_ifs at h <;> (injection h with h; subst h) <;>
          exact ⟨rfl, rfl, rfl, rfl⟩

theorem dispatch_locals {repo : Repo} {config : Config}
    {heads : List (String × List String)} {refname : String} {bim : Bool}
    {fetch push : Option UpstreamMergeState} {c cc : Classification}
    (h : dispatch repo config heads refname bim fetch push c = .ok cc) :
    (cc.result.merged_locals = insert refname c.result.merged_locals ∧
      cc.result.stray_locals = c.result.stray_locals) ∨
    (cc.result.merged_locals = c.result.merged_locals ∧
      cc.result.stray_locals = insert refname c.result.stray_locals) ∨
    (cc.result.merged_locals = c.result.merged_locals ∧
      cc.result.stray_locals = c.result.stray_locals) := by
  unfold dispatch at h
  split at h
  · split_ifs at h
    · split at h
      · cases h
      · rename_i c1 heq
        have a := mosr_fields heq
        have b := mosr_fields h
        exact Or.inl ⟨b.2.2.2.2.1.trans a.2.2.2.2.1,
          b.2.2.2.2.2.trans a.2.2.2.2.2⟩
    · split at h
      · cases h
      · rename_i c1 heq
        have a := mosr_fields heq
        have b := mosr_fields h
        exact Or.inr (Or.inl ⟨b.2.2.2.2.1.trans a.2.2.2.2.1,
          b.2.2.2.2.2.trans a.2.2.2.2.2⟩)
    · injection h with h
      subst h
      exact Or.inr (Or.inr ⟨rfl, rfl⟩)
  · split_ifs at h
    · have a := mosr_fields h
      exact Or.inl ⟨a.2.2.2.2.1, a.2.2.2.2.2⟩
    · have a := merged_remote_fields h
      exact Or.inr (Or.inl ⟨a.2.2.2.2.1, a.2.2.2.2.2⟩)
    · injection h with h
      subst h
      exact Or.inr (Or.inr ⟨rfl, rfl⟩)
  · split_ifs at h
    · have a := mosr_fields h
      exact Or.inl ⟨a.2.2.2.2.1, a.2.2.2.2.2⟩
    · have a := merged_remote_fields h
      exact Or.inr (Or.inl ⟨a.2.2.2.2.1, a.2.2.2.2.2⟩)
    · injection h with h
      subst h
      exact Or.inr (Or.inr ⟨rfl, rfl⟩)
  · split at h
    · cases h
    · split at h
      · cases h
      · simp only at h
        split_ifs at h <;> (injection h with h; subst h)
        · exact Or.inl ⟨rfl, rfl⟩
        · exact Or.inl ⟨rfl, rfl⟩
        · exact Or.inr (Or.inl ⟨rfl, rfl⟩)
        · exact Or.inr (Or.inr ⟨rfl, rfl⟩)

theorem classify_shape {repo : Repo} {config : Config} {now : Nat}
    {hint : Finset String} {heads : List (String × List String)}
    {base refname : String} {c : Classification}
    (h : classify repo config now hint heads base refname = .ok c) :
    ∃ branch bim fetch push,
      Ref.from_name repo refname = .ok branch ∧
      (if refname ∈ hint then Except.ok true
        else is_merged repo now base refname) = .ok bim ∧
      fetch_state repo config now base refname branch bim = .ok fetch ∧
      push_state repo config now base refname branch bim fetch = .ok push ∧
      c.branch = branch ∧ c.branch_is_merged = bim ∧ c.fetch = fetch ∧
      c.push = push ∧
      dispatch repo config heads refname bim fetch push
        { branch := branch, branch_is_merged := bim, fetch := fetch,
          push := push, messages := [], result := .empty } = .ok c := by
  unfold classify at h
  split at h
  · cases h
  · rename_i branch hbr
    split at h
    · cases h
    · rename_i bim hbim
      split at h
      · cases h
      · rename_i fetch hfs
        split at h
        · cases h
        · rename_i push hps
          have hf := dispatch_fields h
          exact ⟨branch, bim, fetch, push, hbr, hbim, hfs, hps,
            hf.1, hf.2.1, hf.2.2.1, hf.2.2.2, h⟩

theorem push_state_some {repo : Repo} {config : Config} {now : Nat}
    {base refname : String} {branch : Ref} {bim : Bool}
    {fetch p : Option UpstreamMergeState} {pname : String}
    (hp : get_push_upstream config refname = some pname)
    (h : push_state repo config now base refname branch bim fetch = .ok p) :
    ∃ ps, p = some ps := by
  unfold push_state at h
  rw [hp] at h
  split at h
  · rename_i heq
    cases heq
  · rename_i fname heq
    injection heq with heq
    subst heq
    split at h
    · cases h
    · split_ifs at h
      · injection h with h
        exact ⟨_, h.symm⟩
      · injection h with h
        exact ⟨_, h.symm⟩
      · split at h
        · cases h
        · injection h with h
          exact ⟨_, h.symm⟩

theorem push_state_merged_iff {repo : Repo} {config : Config} {now : Nat}
    {base refname : String} {branch : Ref} {bim : Bool}
    {fetch : Option UpstreamMergeState} {pname : String}
    {ps : UpstreamMergeState}
    (hp : get_push_upstream config refname = some pname)
    (h : push_state repo config now base refname branch bim fetch =
      .ok (some ps)) :
    (ps.merged = true ↔
      ((bim = true ∧ ps.upstream.commit = branch.commit) ∨
       (∃ fs, fetch = some fs ∧ fs.merged = true ∧
          ps.upstream.commit = fs.upstream.commit) ∨
       is_merged repo now base ps.upstream.name = .ok true)) := by
  unfold push_state at h
  rw [hp] at h
  split at h
  · rename_i heq
    cases heq
  · rename_i fname heq
    injection heq with heq
    subst heq
    split at h
    · cases h
    · rename_i upstream hup
      split_ifs at h with h1 h2
      · injection h with h
        injection h with h
        subst h
        simp only [Bool.and_eq_true, beq_iff_eq] at h1
        exact iff_of_true rfl (Or.inl ⟨h1.1, h1.2⟩)
      · injection h with h
        injection h with h
        subst h
        rcases hf : fetch with _ | x
        · rw [hf] at h2
          cases h2
        · rw [hf] at h2
          simp only [Bool.and_eq_true, beq_iff_eq] at h2
          exact iff_of_true rfl (Or.inr (Or.inl ⟨x, rfl, h2.1, h2.2⟩))
      · split at h
        · cases h
        · rename_i b hm
          injection h with h
          injection h with h
          subst h
          constructor
          · intro hb
            have hb2 : b = true := hb
            exact Or.inr (Or.inr (hm.trans (by rw [hb2])))
          · rintro (⟨hb, hcomm⟩ | ⟨fs, hfs, hfm, hcomm⟩ | h3)
            · have hc2 : upstream.commit = branch.commit := hcomm
              exact absurd (by simp [hb, hc2]) h1
            · have hc2 : upstream.commit = fs.upstream.commit := hcomm
              refine absurd ?_ h2
              rw [hfs]
              simp [hfm, hc2]
            · rw [hm] at h3
              injection h3

/-! ### C6: the push-upstream merged flag -/

/-- C6: whenever the push upstream of a branch resolves, the merged flag
classify records for it is the disjunction of the branch being merged at
the same commit, the already merged fetch upstream sitting at the same
commit, and the oracle answering true for the push upstream, with the
fetch short-circuit preserved. -/
theorem push_upstream_merged_flag (repo : Repo) (config : Config)
    (now : Nat) (hint : Finset String)
    (heads : List (String × List String)) (base refname pname : String)
    (c : Classification)
    (hc : classify repo config now hint heads base refname = .ok c)
    (hp : get_push_upstream config refname = some pname) :
    ∃ ps, c.push = some ps ∧
      (ps.merged = true ↔
        ((c.branch_is_merged = true ∧
            ps.upstream.commit = c.branch.commit) ∨
         (∃ fs, c.fetch = some fs ∧ fs.merged = true ∧
            ps.upstream.commit = fs.upstream.commit) ∨
         is_merged repo now base ps.upstream.name = .ok true)) := by
  rcases classify_shape hc with
    ⟨branch, bim, fetch, push, hbr, hbim, hfs, hps, e1, e2, e3, e4, hd⟩
  rcases push_state_some hp hps with ⟨ps, rfl⟩
  refine ⟨ps, e4, ?_⟩
  rw [e1, e2, e3]
  exact push_state_merged_iff hp hps

/-- Witness for C6 at the push-upstream repository: the merged flag of
the push upstream of branch p satisfies the disjunction. -/
theorem push_upstream_merged_flag_witness :
    ∃ ps, c6c.push = some ps ∧
      (ps.merged = true ↔
        ((c6c.branch_is_merged = true ∧
            ps.upstream.commit = c6c.branch.commit) ∨
         (∃ fs, c6c.fetch = some fs ∧ fs.merged = true ∧
            ps.upstream.commit = fs.upstream.commit) ∨
         is_merged repoPush 0 "refs/remotes/origin/main" ps.upstream.name =
           .ok true)) :=
  push_upstream_merged_flag repoPush cfgPush 0 ∅ []
    "refs/remotes/origin/main" "refs/heads/p" "refs/remotes/origin/p" c6c
    (by decide) (by decide)

/-! ### C7: the raw-config fallback with a missing remote head -/

/-- C7: when neither upstream resolves, the raw configuration names a
remote and merge refname, the named head is absent from the remote, and
the branch is merged, classify emits exactly the branch as a merged local
and nothing else. -/
theorem fallback_merged_local_only (repo : Repo) (config : Config)
    (now : Nat) (hint : Finset String)
    (heads : List (String × List String)) (base refname : String)
    (remote mergeRef : String) (c : Classification)
    (hc : classify repo config now hint heads base refname = .ok c)
    (hf : get_fetch_upstream config refname = none)
    (hp : get_push_upstream config refname = none)
    (hr : get_remote_raw config refname = some remote)
    (hm : get_merge config refname = some mergeRef)
    (hx : (match heads.lookup remote with
           | some hs => hs.contains mergeRef
           | none => false) = false)
    (hbm : c.branch_is_merged = true) :
    c.result = ⟨{refname}, ∅, ∅, ∅⟩ := by
  rcases classify_shape hc with
    ⟨branch, bim, fetch, push, hbr, hbim, hfs, hps, e1, e2, e3, e4, hd⟩
  have hfn : fetch = none := by
    unfold fetch_state at hfs
    rw [hf] at hfs
    injection hfs with hfs
    exact hfs.symm
  subst hfn
  have hpn : push = none := by
    unfold push_state at hps
    rw [hp] at hps
    injection hps with hps
    exact hps.symm
  subst hpn
  have hbim2 : bim = true := e2.symm.trans hbm
  subst hbim2
  unfold dispatch at hd
  rw [hr] at hd
  rw [hm] at hd
  simp only at hd
  rw [hx] at hd
  simp only [Bool.false_and, Bool.and_self, if_neg, Bool.false_eq_true,
    not_false_eq_true, if_true] at hd
  injection hd with hd
  subst hd
  rfl

/-- Witness for C7 at the raw-config repository: the legacy branch is
emitted as a merged local only. -/
theorem fallback_merged_local_only_witness :
    c7c.result = ⟨{"refs/heads/legacy"}, ∅, ∅, ∅⟩ :=
  fallback_merged_local_only repoFall cfgFall 0 ∅ []
    "refs/remotes/origin/main" "refs/heads/legacy"
    "https://example.com/r.git" "refs/heads/legacy" c7c
    (by decide) (by decide) (by decide) (by decide) (by decide) (by decide)
    (by decide)

/-! ### C3: accumulation of classifications -/

theorem classify_locals {repo : Repo} {config : Config} {now : Nat}
    {hint : Finset String} {heads : List (String × List String)}
    {base refname : String} {c : Classification}
    (h : classify repo config now hint heads base refname = .ok c) :
    (∀ x ∈ c.result.merged_locals, x = refname) ∧
    (∀ x ∈ c.result.stray_locals, x = refname) ∧
    (refname ∉ c.result.merged_locals ∨
      refname ∉ c.result.stray_locals) := by
  rcases classify_shape h with
    ⟨branch, bim, fetch, push, _, _, _, _, _, _, _, _, hd⟩
  rcases dispatch_locals hd with ⟨h1, h2⟩ | ⟨h1, h2⟩ | ⟨h1, h2⟩
  · exact ⟨by simp [h1, MergedOrStray.empty],
      by simp [h2, MergedOrStray.empty],
      Or.inr (by simp [h2, MergedOrStray.empty])⟩
  · exact ⟨by simp [h1, MergedOrStray.empty],
      by simp [h2, MergedOrStray.empty],
      Or.inl (by simp [h1, MergedOrStray.empty])⟩
  · exact ⟨by simp [h1, MergedOrStray.empty],
      by simp [h2, MergedOrStray.empty],
      Or.inl (by simp [h1, MergedOrStray.empty])⟩

theorem foldl_locals_disjoint (repo : Repo) (config : Config) (now : Nat)
    (hint : Finset String) (heads : List (String × List String))
    (base : String) :
    ∀ (rs : List String) (cs : List Classification) (acc : MergedOrStray),
      rs.Nodup →
      List.Forall₂ (fun r c =>
        classify repo config now hint heads base r = .ok c) rs cs →
      (∀ x, ¬(x ∈ acc.merged_locals ∧ x ∈ acc.stray_locals)) →
      (∀ x, (x ∈ acc.merged_locals ∨ x ∈ acc.stray_locals) → x ∉ rs) →
      ∀ x, ¬(x ∈ (cs.foldl (fun m c => m.accumulate c.result)
          acc).merged_locals ∧
        x ∈ (cs.foldl (fun m c => m.accumulate c.result)
          acc).stray_locals) := by
  intro rs cs acc hnd hall
  revert hnd
  induction hall generalizing acc with
  | nil =>
    intro _ hdisj _ x
    exact hdisj x
  | cons hrc hall ih =>
    rename_i r c rs' cs'
    intro hnd hdisj hscope x
    rcases List.nodup_cons.mp hnd with ⟨hrn, hnd'⟩
    rcases classify_locals hrc with ⟨hcm, hcs, hcd⟩
    simp only [List.foldl_cons]
    refine ih _ hnd' ?_ ?_ x
    · intro y ⟨hym, hys⟩
      rcases Finset.mem_union.mp hym with hym | hym <;>
        rcases Finset.mem_union.mp hys with hys | hys
      · exact hdisj y ⟨hym, hys⟩
      · have := hcs y hys
        subst this
        exact hscope y (Or.inl hym) (List.mem_cons_self _ _)
      · have := hcm y hym
        subst this
        exact hscope y (Or.inr hys) (List.mem_cons_self _ _)
      · have h1 := hcm y hym
        subst h1
        rcases hcd with hcd | hcd
        · exact hcd hym
        · exact hcd hys
    · intro y hy hmem
      rcases hy with hy | hy <;> rcases Finset.mem_union.mp hy with hy | hy
      · exact hscope y (Or.inl hy) (List.mem_cons_of_mem _ hmem)
      · have := hcm y hy
        subst this
        exact hrn hmem
      · exact hscope y (Or.inr hy) (List.mem_cons_of_mem _ hmem)
      · have := hcs y hy
        subst this
        exact hrn hmem

/-- C3 counterexample: two distinct branches, each classified once, share
one upstream; accumulating their classifications puts that RemoteBranch
in both the merged and the stray remote sets. -/
theorem c3_counterexample :
    ["refs/heads/b1", "refs/heads/b2"].Nodup ∧
    classify repoShared cfgShared 0 hintShared []
      "refs/remotes/origin/main" "refs/heads/b1" = .ok c3c1 ∧
    classify repoShared cfgShared 0 hintShared []
      "refs/remotes/origin/main" "refs/heads/b2" = .ok c3c2 ∧
    sharedRB ∈ (accumulateResults [c3c1, c3c2]).merged_remotes ∧
    sharedRB ∈ (accumulateResults [c3c1, c3c2]).stray_remotes := by
  decide

/-- C3 amended: accumulating the results of classifications of pairwise
distinct branches yields a MergedOrStray in which no local name sits in
both merged locals and stray locals; the corresponding disjointness for
remote branches can fail when two branches share an upstream. -/
theorem accumulated_locals_disjoint (repo : Repo) (config : Config)
    (now : Nat) (hint : Finset String)
    (heads : List (String × List String)) (base : String)
    (rs : List String) (cs : List Classification)
    (hnd : rs.Nodup)
    (hall : List.Forall₂ (fun r c =>
      classify repo config now hint heads base r = .ok c) rs cs)
    (x : String) :
    ¬(x ∈ (accumulateResults cs).merged_locals ∧
      x ∈ (accumulateResults cs).stray_locals) :=
  foldl_locals_disjoint repo config now hint heads base rs cs .empty hnd
    hall (by simp [MergedOrStray.empty]) (by simp [MergedOrStray.empty]) x

/-- Witness for the amended C3 at the shared-upstream repository. -/
theorem accumulated_locals_disjoint_witness :
    ¬("refs/heads/b1" ∈ (accumulateResults [c3c1, c3c2]).merged_locals ∧
      "refs/heads/b1" ∈ (accumulateResults [c3c1, c3c2]).stray_locals) :=
  accumulated_locals_disjoint repoShared cfgShared 0 hintShared []
    "refs/remotes/origin/main" ["refs/heads/b1", "refs/heads/b2"]
    [c3c1, c3c2] (by decide)
    (List.forall₂_cons.mpr ⟨by decide,
      List.forall₂_cons.mpr ⟨by decide, List.Forall₂.nil⟩⟩)
    "refs/heads/b1"
